import Mathlib

/-!
Verification of the fanrf ceiling-fan RF remote driver.

The Rust source is shallowly embedded: machine integers (u8/u16/u32/u64)
become `Nat` with explicit wrapping where overflow matters, `f64`
arithmetic on the frequency/rate/brightness paths becomes exact `ℚ`
arithmetic with explicit truncation, iterator pipelines become explicit
state machines or list functions, and fallible operations return
`Option`.
-/

namespace Fanrf

/-! ## Simple (12-bit) packet: `FanPkt12` and `FanPkt12Bits` (src/main.rs) -/

/-- Rust `struct FanPkt12 { addr: u8, cmd: u8 }`. -/
structure FanPkt12 where
  addr : Nat
  cmd : Nat
deriving DecidableEq, Repr

/-- One step of the `FanPkt12Bits` iterator at counter `count`
(`FanPkt12Bits::next`): count 0 yields the constant marker `1`,
counts 1–4 the address bits MSB-first, counts 5–11 the command bits
MSB-first, and any larger count yields nothing. -/
def fanPkt12Next (pkt : FanPkt12) (count : Nat) : Option Bool :=
  if count = 0 then
    some true
  else if count ≤ 4 then
    some (decide (pkt.addr &&& (1 <<< (3 - (count - 1))) ≠ 0))
  else if count ≤ 11 then
    some (decide (pkt.cmd &&& (1 <<< (6 - (count - 5))) ≠ 0))
  else
    none

/-- Collect the bits the `FanPkt12Bits` iterator yields starting from
counter `count`, stopping as soon as `fanPkt12Next` yields nothing.
`fuel` only bounds the recursion; `fanPkt12Next` is `none` from
counter 12 on (`fanPkt12Next_stops`), so fuel 12 from counter 0
exhausts the iterator. -/
def fanPkt12ListAux (pkt : FanPkt12) : Nat → Nat → List Bool
  | 0, _ => []
  | fuel + 1, count =>
    match fanPkt12Next pkt count with
    | none => []
    | some b => b :: fanPkt12ListAux pkt fuel (count + 1)

/-- The full bit sequence of the `FanPkt12Bits` iterator. -/
def fanPkt12List (pkt : FanPkt12) : List Bool :=
  fanPkt12ListAux pkt 12 0

theorem fanPkt12Next_stops (pkt : FanPkt12) (count : Nat) (h : 12 ≤ count) :
    fanPkt12Next pkt count = none := by
  unfold fanPkt12Next
  have h0 : count ≠ 0 := by omega
  have h4 : ¬ count ≤ 4 := by omega
  have h11 : ¬ count ≤ 11 := by omega
  simp [h0, h4, h11]

/-- The decoder from the source's `fan12_serializer` test (`from_iter`):
requires a leading `1` bit, then 4 address bits MSB-first, then 7
command bits MSB-first, then end of stream. -/
def fanPkt12FromIter (l : List Bool) : Option FanPkt12 :=
  match l with
  | true :: a3 :: a2 :: a1 :: a0 :: c6 :: c5 :: c4 :: c3 :: c2 :: c1 :: c0 :: [] =>
    some
      { addr :=
          (if a3 then 1 <<< 3 else 0) ||| (if a2 then 1 <<< 2 else 0) |||
            (if a1 then 1 <<< 1 else 0) ||| (if a0 then 1 <<< 0 else 0)
        cmd :=
          (if c6 then 1 <<< 6 else 0) ||| (if c5 then 1 <<< 5 else 0) |||
            (if c4 then 1 <<< 4 else 0) ||| (if c3 then 1 <<< 3 else 0) |||
            (if c2 then 1 <<< 2 else 0) ||| (if c1 then 1 <<< 1 else 0) |||
            (if c0 then 1 <<< 0 else 0) }
  | _ => none

/-! ## Dimmer (21-bit) packet: `FanPkt21` and `FanPkt21Bits` (src/main.rs) -/

/-- Rust `fn reverse_nibble(n: u8) -> u8`. -/
def reverse_nibble (n : Nat) : Nat :=
  (n &&& (1 <<< 3)) >>> 3 ||| (n &&& (1 <<< 2)) >>> 1 |||
    (n &&& (1 <<< 1)) <<< 1 ||| (n &&& (1 <<< 0)) <<< 3

/-- Rust `enum FanState21 { Off = 0x3, Low = 0x0, Med = 0x1, High = 0x2 }`. -/
inductive FanState21
  | off
  | low
  | med
  | high
deriving DecidableEq, Repr

/-- The `u8` discriminant of a `FanState21`. -/
def FanState21.val : FanState21 → Nat
  | .off => 0x3
  | .low => 0x0
  | .med => 0x1
  | .high => 0x2

/-- Rust `const BRIGHTNESS_MAX: u8 = 62`. -/
def BRIGHTNESS_MAX : Nat := 62

/-- Rust `const BRIGHTNESS_MIN: u8 = 19`. -/
def BRIGHTNESS_MIN : Nat := 19

/-- Rust `struct FanPkt21 { data0: u8, data1: u8, chksum: u8 }`. -/
structure FanPkt21 where
  data0 : Nat
  data1 : Nat
  chksum : Nat
deriving DecidableEq, Repr

/-- The brightness-scaling step of `FanPkt21::new`: brightness exactly
`0.0` maps to the reserved off code 63, otherwise
`((BRIGHTNESS_MAX - BRIGHTNESS_MIN) as f64 * brightness) as u8 +
BRIGHTNESS_MIN`.  The `f64` fraction is embedded as an exact `ℚ`; the
`as u8` cast truncates the product toward zero, which on the
non-negative asserted domain is `Int.toNat ∘ Int.floor`. -/
def scaleBrightness (brightness : ℚ) : Nat :=
  if brightness = 0 then 63
  else (⌊((BRIGHTNESS_MAX - BRIGHTNESS_MIN : Nat) : ℚ) * brightness⌋).toNat + BRIGHTNESS_MIN

/-- Rust `FanPkt21::new(addr, brightness, fan)` after its
`assert!(brightness >= 0.0 && brightness <= 1.0)`.  On that asserted
domain every intermediate `u8` value stays below 256 (the checksum sum
is at most 63), so plain `Nat` arithmetic is exact. -/
def fanPkt21New (addr : Nat) (brightness : ℚ) (fan : FanState21) : FanPkt21 :=
  let scaled := scaleBrightness brightness
  let data0 := 0x7 <<< 5 ||| reverse_nibble addr <<< 1 ||| 1
  let data1 := scaled <<< 2 ||| fan.val
  let chksum := (data0 >>> 4) + (data0 &&& 0xf) + (data1 >>> 4) + (data1 &&& 0xf) + 3
  { data0 := data0, data1 := data1, chksum := chksum &&& 0xf }

/-- One step of the `FanPkt21Bits` iterator at counter `count`
(`FanPkt21Bits::next`): counts 0–7 are `data0` MSB-first, counts 8–15
are `data1` MSB-first, count 16 is the constant `1`, counts 17–20 are
the checksum MSB-first, any larger count yields nothing. -/
def fanPkt21Next (pkt : FanPkt21) (count : Nat) : Option Bool :=
  if count ≤ 7 then
    some (decide (pkt.data0 &&& (1 <<< (7 - (count - 0))) ≠ 0))
  else if count ≤ 15 then
    some (decide (pkt.data1 &&& (1 <<< (7 - (count - 8))) ≠ 0))
  else if count = 16 then
    some true
  else if count ≤ 20 then
    some (decide (pkt.chksum &&& (1 <<< (3 - (count - 17))) ≠ 0))
  else
    none

/-- Collect the bits the `FanPkt21Bits` iterator yields starting from
counter `count`, stopping as soon as `fanPkt21Next` yields nothing.
`fuel` only bounds the recursion; `fanPkt21Next` is `none` from
counter 21 on (`fanPkt21Next_stops`), so fuel 21 from counter 0
exhausts the iterator. -/
def fanPkt21ListAux (pkt : FanPkt21) : Nat → Nat → List Bool
  | 0, _ => []
  | fuel + 1, count =>
    match fanPkt21Next pkt count with
    | none => []
    | some b => b :: fanPkt21ListAux pkt fuel (count + 1)

/-- The full bit sequence of the `FanPkt21Bits` iterator. -/
def fanPkt21List (pkt : FanPkt21) : List Bool :=
  fanPkt21ListAux pkt 21 0

theorem fanPkt21Next_stops (pkt : FanPkt21) (count : Nat) (h : 21 ≤ count) :
    fanPkt21Next pkt count = none := by
  unfold fanPkt21Next
  have h7 : ¬ count ≤ 7 := by omega
  have h15 : ¬ count ≤ 15 := by omega
  have h16 : count ≠ 16 := by omega
  have h20 : ¬ count ≤ 20 := by omega
  simp [h7, h15, h16, h20]

/-- The address decoder from the source's `fan21_serializer` test
(`from_iter`): requires three leading `1` bits, reads the 4 address
bits (which sit on the wire in reversed, LSB-first order), requires the
marker `1`, skips the 8 state bits, requires the constant `1`, skips
the 4 checksum bits, requires end of stream. -/
def fanPkt21FromIterAddr (l : List Bool) : Option Nat :=
  match l with
  | true :: true :: true :: a0 :: a1 :: a2 :: a3 :: true ::
      _s0 :: _s1 :: _s2 :: _s3 :: _s4 :: _s5 :: _s6 :: _s7 :: true ::
      _c0 :: _c1 :: _c2 :: _c3 :: [] =>
    some
      ((if a0 then 1 <<< 0 else 0) ||| (if a1 then 1 <<< 1 else 0) |||
        (if a2 then 1 <<< 2 else 0) ||| (if a3 then 1 <<< 3 else 0))
  | _ => none

end Fanrf

namespace Fanrf

theorem fanPkt12_roundtrip_bounded :
    ∀ a < 16, ∀ c < 128,
      fanPkt12FromIter (fanPkt12List ⟨a, c⟩) = some ⟨a, c⟩ ∧
      (fanPkt12List ⟨a, c⟩).length = 12 := by
  decide

/-- C1: Simple-frame round-trip: for every address in 0..15 and every
7-bit action value in 0..127, decoding the encoded 12-bit frame gives
back exactly the original (address, action) pair, the encoder emits
exactly 12 bits, and from counter 12 on the iterator yields nothing. -/
theorem fanPkt12_roundtrip :
    ∀ a < 16, ∀ c < 128,
      fanPkt12FromIter (fanPkt12List ⟨a, c⟩) = some ⟨a, c⟩ ∧
      (fanPkt12List ⟨a, c⟩).length = 12 ∧
      ∀ count, 12 ≤ count → fanPkt12Next ⟨a, c⟩ count = none := by
  intro a ha c hc
  obtain ⟨h1, h2⟩ := fanPkt12_roundtrip_bounded a ha c hc
  exact ⟨h1, h2, fun count hcount => fanPkt12Next_stops ⟨a, c⟩ count hcount⟩

/-- Witness for `fanPkt12_roundtrip` at address 9, action 0x20. -/
theorem fanPkt12_roundtrip_witness :
    fanPkt12FromIter (fanPkt12List ⟨9, 32⟩) = some ⟨9, 32⟩ ∧
      (fanPkt12List ⟨9, 32⟩).length = 12 ∧
      ∀ count, 12 ≤ count → fanPkt12Next ⟨9, 32⟩ count = none :=
  fanPkt12_roundtrip 9 (by decide) 32 (by decide)

end Fanrf

namespace Fanrf

/-- C2 counterexample: at address 0 (brightness 0.0, fan Off) the
code's `data0` is `0x7 << 5 | rev4(0) << 1 | 1 = 0xE1`, while the
claimed formula `0b111_0000 | (rev4(0) << 1) | 1` gives `0x71`: the
claim's literal places the three fixed bits one position too low. -/
theorem fanPkt21_data0_cex :
    (fanPkt21New 0 0 .off).data0 ≠ 0b1110000 ||| (reverse_nibble 0 <<< 1) ||| 1 := by
  decide

/-- C2 amended: for every address in 0..15 (and every brightness and
fan state), `data0 = 0b1110_0000 | (rev4(address) << 1) | 1` — three
fixed high bits at bit positions 7–5, the reversed address at bits 4–1,
and a fixed low marker bit. -/
theorem fanPkt21_data0 (addr : Nat) (h : addr < 16) (brightness : ℚ) (fan : FanState21) :
    (fanPkt21New addr brightness fan).data0 =
      0b11100000 ||| (reverse_nibble addr <<< 1) ||| 1 :=
  rfl

/-- Witness for `fanPkt21_data0` at address 14, brightness 0.0, fan Off. -/
theorem fanPkt21_data0_witness :
    (fanPkt21New 14 0 .off).data0 = 0b11100000 ||| (reverse_nibble 14 <<< 1) ||| 1 :=
  fanPkt21_data0 14 (by decide) 0 .off

theorem fanPkt21_frame_bounded :
    ∀ a < 16,
      (fanPkt21List (fanPkt21New a 0 .off)).length = 21 ∧
      (fanPkt21List (fanPkt21New a 0 .off)).take 3 = [true, true, true] ∧
      fanPkt21FromIterAddr (fanPkt21List (fanPkt21New a 0 .off)) = some a := by
  decide

/-- C3: Dimmer frame structure: for every address in 0..15 with fan
state Off and brightness 0.0, the serialized frame is exactly 21 bits
(and the iterator yields nothing from counter 21 on), its first three
bits are 1,1,1, and the embedded address field decodes back to the
original address. -/
theorem fanPkt21_frame (a : Nat) (h : a < 16) :
    (fanPkt21List (fanPkt21New a 0 .off)).length = 21 ∧
    (fanPkt21List (fanPkt21New a 0 .off)).take 3 = [true, true, true] ∧
    fanPkt21FromIterAddr (fanPkt21List (fanPkt21New a 0 .off)) = some a ∧
    ∀ count, 21 ≤ count → fanPkt21Next (fanPkt21New a 0 .off) count = none := by
  obtain ⟨h1, h2, h3⟩ := fanPkt21_frame_bounded a h
  exact ⟨h1, h2, h3, fun count hc => fanPkt21Next_stops _ count hc⟩

/-- Witness for `fanPkt21_frame` at address 14. -/
theorem fanPkt21_frame_witness :
    (fanPkt21List (fanPkt21New 14 0 .off)).length = 21 ∧
    (fanPkt21List (fanPkt21New 14 0 .off)).take 3 = [true, true, true] ∧
    fanPkt21FromIterAddr (fanPkt21List (fanPkt21New 14 0 .off)) = some 14 ∧
    ∀ count, 21 ≤ count → fanPkt21Next (fanPkt21New 14 0 .off) count = none :=
  fanPkt21_frame 14 (by decide)

/-- C9: Brightness code mapping: on the asserted domain `[0, 1]`, a
fraction of exactly 0.0 yields code 63, and otherwise the code is
`19 + floor((62 - 19) * fraction)`, which always lies in `[19, 62]`. -/
theorem scaleBrightness_spec (b : ℚ) (h0 : 0 ≤ b) (h1 : b ≤ 1) :
    (b = 0 → scaleBrightness b = 63) ∧
    (b ≠ 0 →
      scaleBrightness b = 19 + (⌊((62 : ℚ) - 19) * b⌋).toNat ∧
      19 ≤ scaleBrightness b ∧ scaleBrightness b ≤ 62) := by
  constructor
  · intro hb
    simp [scaleBrightness, hb]
  · intro hb
    have hpos : 0 < b := lt_of_le_of_ne h0 (Ne.symm hb)
    have hval : scaleBrightness b = (⌊(43 : ℚ) * b⌋).toNat + 19 := by
      rw [scaleBrightness, if_neg hb]
      norm_num [BRIGHTNESS_MAX, BRIGHTNESS_MIN]
    have hcl : ((62 : ℚ) - 19) = 43 := by norm_num
    have hfl0 : 0 ≤ ⌊(43 : ℚ) * b⌋ := Int.floor_nonneg.mpr (by positivity)
    have hfl43 : ⌊(43 : ℚ) * b⌋ ≤ 43 := by
      have hle : (43 : ℚ) * b ≤ 43 := by nlinarith
      calc ⌊(43 : ℚ) * b⌋ ≤ ⌊(43 : ℚ)⌋ := Int.floor_le_floor hle
        _ = 43 := by norm_num
    refine ⟨?_, ?_, ?_⟩
    · rw [hval, hcl]
      omega
    · rw [hval]
      omega
    · rw [hval]
      omega

/-- Witness for `scaleBrightness_spec` at fraction 1/2. -/
theorem scaleBrightness_spec_witness :
    ((1 / 2 : ℚ) = 0 → scaleBrightness (1 / 2) = 63) ∧
    ((1 / 2 : ℚ) ≠ 0 →
      scaleBrightness (1 / 2) = 19 + (⌊((62 : ℚ) - 19) * (1 / 2)⌋).toNat ∧
      19 ≤ scaleBrightness (1 / 2) ∧ scaleBrightness (1 / 2) ≤ 62) :=
  scaleBrightness_spec (1 / 2) (by norm_num) (by norm_num)

end Fanrf

namespace Fanrf

/-! ## Physical framing: `FanExpand` and `FanPkt::transmit` (src/main.rs) -/

/-- Rust `enum FanExpandState { Start, Data, End }` (`End` is rendered
`stop` since `end` is a Lean keyword). -/
inductive FanExpandState
  | start
  | data
  | stop
deriving DecidableEq, Repr

/-- Run the `FanExpand` iterator (`FanExpand::next`) over the remaining
input bits `l` from state `s` until the inner iterator is exhausted (in
state `Start`).  In `Start` it pulls an input bit and yields it (moving
to `Data`), in `Data` it yields the constant `1`, in `End` the constant
`0`, returning to `Start`. -/
def fanExpandRun : List Bool → FanExpandState → List Bool
  | [], .start => []
  | b :: rest, .start => b :: fanExpandRun rest .data
  | l, .data => true :: fanExpandRun l .stop
  | l, .stop => false :: fanExpandRun l .start
termination_by l s => 3 * l.length + (match s with | .start => 0 | .data => 2 | .stop => 1)

theorem fanExpandRun_eq_bind (l : List Bool) :
    fanExpandRun l .start = l.flatMap (fun b => [b, true, false]) := by
  induction l with
  | nil => simp [fanExpandRun]
  | cons b rest ih => simp [fanExpandRun, ih]

/-- One repetition unit built by `send_pkt` inside `FanPkt::transmit`:
the `FanExpand` of (a single constant `0` start bit, chained with the
frame bits), itself chained with `11 * 3` constant-`0` filler symbols
(the 11 ms pause at the 1/3 ms symbol period). -/
def sendPktUnit (frame : List Bool) : List Bool :=
  fanExpandRun (List.replicate 1 false ++ frame) .start ++ List.replicate (11 * 3) false

/-- Rust `send_pkt`: `repeat(unit).cycle().take(count).flat_map(..)` over
the clonable repeat unit concatenates `count` fresh copies of it. -/
def sendPkt (frame : List Bool) (count : Nat) : List Bool :=
  (List.replicate count (sendPktUnit frame)).flatten

/-- Rust `enum FanPkt { Dumb(FanPkt12), Smart(FanPkt21) }`. -/
inductive FanPkt
  | dumb (pkt : FanPkt12)
  | smart (pkt : FanPkt21)

/-- Rust `FanPkt::transmit`: the complete bit sequence handed to
`transmit_bitstream` — the repeat unit 20 times for a `Dumb` (12-bit)
packet, 30 times for a `Smart` (21-bit) packet. -/
def FanPkt.transmit : FanPkt → List Bool
  | .dumb pkt => sendPkt (fanPkt12List pkt) 20
  | .smart pkt => sendPkt (fanPkt21List pkt) 30

/-- Spec-side 3-for-1 symbol expansion: each bit `b` becomes the three
symbols `b`, `1`, `0`. -/
def expandSpec (bits : List Bool) : List Bool :=
  bits.flatMap (fun b => [b, true, false])

/-- Spec-side repeat unit: one constant `0` start bit prepended to the
frame, every bit (start bit included) expanded 3-for-1, then exactly 33
constant-`0` filler symbols that are not expanded. -/
def repeatUnitSpec (frame : List Bool) : List Bool :=
  expandSpec (false :: frame) ++ List.replicate 33 false

theorem sendPktUnit_eq_spec (frame : List Bool) :
    sendPktUnit frame = repeatUnitSpec frame := by
  rw [sendPktUnit, repeatUnitSpec, fanExpandRun_eq_bind, expandSpec]
  rfl

/-- C4: Physical framing and repetition: for every command packet, the
transmitted bit sequence is one repeat unit repeated back-to-back 20
times (simple 12-bit command) or 30 times (dimmer 21-bit command),
where the repeat unit expands each bit of (constant `0` start bit ::
frame) into the three symbols (bit, 1, 0) and appends exactly 33
unexpanded constant-`0` filler symbols. -/
theorem fanPkt_transmit_framing :
    (∀ p : FanPkt12,
      FanPkt.transmit (.dumb p) = (List.replicate 20 (repeatUnitSpec (fanPkt12List p))).flatten) ∧
    (∀ p : FanPkt21,
      FanPkt.transmit (.smart p) = (List.replicate 30 (repeatUnitSpec (fanPkt21List p))).flatten) := by
  constructor
  · intro p
    rw [FanPkt.transmit, sendPkt, sendPktUnit_eq_spec]
  · intro p
    rw [FanPkt.transmit, sendPkt, sendPktUnit_eq_spec]

/-! ## Bit packing: `BitsToBytes` in `Rfm22::transmit_bitstream` (src/rfm.rs) -/

/-- Pack the remaining bits of one byte of the `BitsToBytes` iterator:
bit `b` contributes `1 <<< idx`, the next bit `1 <<< (idx - 1)`, and so
on; missing bits contribute nothing.  The iterator calls this with the
first bit at `idx = 7`. -/
def packByteFrom : List Bool → Nat → Nat
  | [], _ => 0
  | b :: rest, idx => (if b then 1 <<< idx else 0) ||| packByteFrom rest (idx - 1)

/-- The `BitsToBytes` iterator: pulls one bit (the byte's bit 7,
ending the stream if there is none), then up to 7 further bits for
bits 6..0, emits the byte, and repeats.  A final group of fewer than 8
bits still becomes a byte whose unused low bits stay 0. -/
def bitsToBytes : List Bool → List Nat
  | [] => []
  | b0 :: b1 :: b2 :: b3 :: b4 :: b5 :: b6 :: b7 :: rest =>
    packByteFrom [b0, b1, b2, b3, b4, b5, b6, b7] 7 :: bitsToBytes rest
  | l => [packByteFrom l 7]

/-- Spec-side MSB-first unpacking of one byte into its 8 bits. -/
def byteToBits (n : Nat) : List Bool :=
  [n.testBit 7, n.testBit 6, n.testBit 5, n.testBit 4,
   n.testBit 3, n.testBit 2, n.testBit 1, n.testBit 0]

theorem byteToBits_packByteFrom (b0 b1 b2 b3 b4 b5 b6 b7 : Bool) :
    byteToBits (packByteFrom [b0, b1, b2, b3, b4, b5, b6, b7] 7) =
      [b0, b1, b2, b3, b4, b5, b6, b7] := by
  revert b0 b1 b2 b3 b4 b5 b6 b7
  decide

theorem bitsToBytes_unpacks :
    ∀ l : List Bool,
      (bitsToBytes l).length = (l.length + 7) / 8 ∧
      (bitsToBytes l).flatMap byteToBits =
        l ++ List.replicate ((8 - l.length % 8) % 8) false
  | [] => by decide
  | [b0] => by revert b0; decide
  | [b0, b1] => by revert b0 b1; decide
  | [b0, b1, b2] => by revert b0 b1 b2; decide
  | [b0, b1, b2, b3] => by revert b0 b1 b2 b3; decide
  | [b0, b1, b2, b3, b4] => by revert b0 b1 b2 b3 b4; decide
  | [b0, b1, b2, b3, b4, b5] => by revert b0 b1 b2 b3 b4 b5; decide
  | [b0, b1, b2, b3, b4, b5, b6] => by revert b0 b1 b2 b3 b4 b5 b6; decide
  | b0 :: b1 :: b2 :: b3 :: b4 :: b5 :: b6 :: b7 :: rest => by
    obtain ⟨ihlen, ihbind⟩ := bitsToBytes_unpacks rest
    have e1 : bitsToBytes (b0 :: b1 :: b2 :: b3 :: b4 :: b5 :: b6 :: b7 :: rest) =
        packByteFrom [b0, b1, b2, b3, b4, b5, b6, b7] 7 :: bitsToBytes rest := rfl
    have hmod : (b0 :: b1 :: b2 :: b3 :: b4 :: b5 :: b6 :: b7 :: rest).length % 8 =
        rest.length % 8 := by
      simp only [List.length_cons]
      omega
    constructor
    · rw [e1]
      simp only [List.length_cons, ihlen]
      omega
    · rw [e1, List.flatMap_cons, byteToBits_packByteFrom, ihbind, hmod]
      simp

/-- C7: Bit packing: for every finite bit sequence, `BitsToBytes` packs
it into bytes MSB-first, 8 bits per byte, producing `ceil(n/8)` bytes
for `n` input bits; a final group of fewer than 8 bits is still emitted
with its unused low bits zero and no input bit dropped (unpacking the
bytes MSB-first gives the input followed only by zero padding); in
particular the 9-bit input 1,0,0,0,0,0,0,0,1 packs to 0x80, 0x80. -/
theorem bitsToBytes_spec :
    (∀ l : List Bool,
      (bitsToBytes l).length = (l.length + 7) / 8 ∧
      (bitsToBytes l).flatMap byteToBits =
        l ++ List.replicate ((8 - l.length % 8) % 8) false) ∧
    bitsToBytes [true, false, false, false, false, false, false, false, true] =
      [0x80, 0x80] := by
  refine ⟨bitsToBytes_unpacks, ?_⟩
  decide

end Fanrf

namespace Fanrf

/-! ## Interrupt bit masks (src/rfm.rs `rfreg!` tables) -/

/-- Mask `IPKSENT` / `ENPKSENT`: bit 2 of InterruptStatus1/InterruptEnable1. -/
def IPKSENT : Nat := 1 <<< 2

/-- Mask `ITXFFAEM` / `ENTXFFAEM`: bit 5 of InterruptStatus1/InterruptEnable1. -/
def ITXFFAEM : Nat := 1 <<< 5

/-! ## Interrupt accounting: `Rfm22IRQs` (src/rfm.rs) -/

/-- The `Rfm22IRQs` controller state: the accumulated `pending` and the
`enabled` `InterruptStatus1`/`InterruptEnable1` bit sets (u8 bitmasks),
plus the `dummy` flag.  The GPIO poller only affects blocking waits and
is not part of the accounting state. -/
structure Rfm22IRQs where
  pending : Nat
  enabled : Nat
  dummy : Bool
deriving DecidableEq, Repr

/-- Rust `Rfm22IRQs::poll`: the freshly read hardware `InterruptStatus1`
byte is the parameter `hw` (reading it clears it in hardware).  The
fresh bits are unioned into the accumulated `pending`, `pending` is
masked to the currently `enabled` bits, and the result is returned —
except in dummy mode, where `ITXFFAEM | IPKSENT` is returned instead
(the state update still happens first). -/
def Rfm22IRQs.poll (st : Rfm22IRQs) (hw : Nat) : Nat × Rfm22IRQs :=
  let pending := (st.pending ||| hw) &&& st.enabled
  let st' := { st with pending := pending }
  if st.dummy then (ITXFFAEM ||| IPKSENT, st') else (pending, st')

/-- Rust `Rfm22IRQs::handled`: remove `irqs` from `pending` only
(`bitflags` `remove` is `&= !other` in u8). -/
def Rfm22IRQs.handled (st : Rfm22IRQs) (irqs : Nat) : Rfm22IRQs :=
  { st with pending := st.pending &&& (255 ^^^ (irqs &&& 255)) }

/-- Rust `Rfm22IRQs::set_enable` (the two verified interrupt-enable register
writes do not touch the accounting state and are omitted): records
`irqs` as the new `enabled` set and clears from `pending` every bit not
in it — `toclear = InterruptStatus1::all().remove(irqs)` is the u8
complement of `irqs`, and `pending.remove(toclear)` masks `pending`
down to `irqs`. -/
def Rfm22IRQs.set_enable (st : Rfm22IRQs) (irqs : Nat) : Rfm22IRQs :=
  let toclear := 255 &&& (255 ^^^ (irqs &&& 255))
  { st with enabled := irqs, pending := st.pending &&& (255 ^^^ toclear) }

/-- C8: Interrupt accounting: in non-dummy mode `poll` unions the
freshly read hardware status bits into the accumulated pending set and
masks it to the enabled set before returning it; consequently, after
`set_enable` of the single bit `i` followed by a poll whose hardware
status reports bits `i` and `j` (with `j ≠ i`) asserted, the returned
pending set contains bit `i` and not bit `j`. -/
theorem rfm22IRQs_poll_accounting :
    (∀ (st : Rfm22IRQs) (hw : Nat), st.dummy = false →
      (st.poll hw).1 = (st.pending ||| hw) &&& st.enabled ∧
      (st.poll hw).2.pending = (st.pending ||| hw) &&& st.enabled) ∧
    (∀ (st : Rfm22IRQs) (i j : Nat), st.dummy = false → i < 8 → j < 8 → i ≠ j →
      ((st.set_enable (1 <<< i)).poll ((1 <<< i) ||| (1 <<< j))).1.testBit i = true ∧
      ((st.set_enable (1 <<< i)).poll ((1 <<< i) ||| (1 <<< j))).1.testBit j = false) := by
  constructor
  · intro st hw hd
    simp [Rfm22IRQs.poll, hd]
  · intro st i j hd hi hj hne
    simp only [Rfm22IRQs.poll, Rfm22IRQs.set_enable, hd, if_false]
    rw [Nat.one_shiftLeft]
    constructor
    · simp [Nat.testBit_land, Nat.testBit_lor, Nat.testBit_two_pow_self]
    · simp [Nat.testBit_land, Nat.testBit_lor, Nat.testBit_two_pow_of_ne hne]

/-- Witness for `rfm22IRQs_poll_accounting`: conjunct one at the empty
non-dummy state with hardware status 0xFF, conjunct two with enabled
bit `i = 2` (`IPKSENT`) and extra hardware bit `j = 5` (`ITXFFAEM`). -/
theorem rfm22IRQs_poll_accounting_witness :
    ((⟨0, 0, false⟩ : Rfm22IRQs).poll 255).1 =
        ((0 : Nat) ||| 255) &&& (0 : Nat) ∧
      ((⟨0, 0, false⟩ : Rfm22IRQs).poll 255).2.pending =
        ((0 : Nat) ||| 255) &&& (0 : Nat) ∧
    (((⟨0, 0, false⟩ : Rfm22IRQs).set_enable (1 <<< 2)).poll
        ((1 <<< 2) ||| (1 <<< 5))).1.testBit 2 = true ∧
      (((⟨0, 0, false⟩ : Rfm22IRQs).set_enable (1 <<< 2)).poll
        ((1 <<< 2) ||| (1 <<< 5))).1.testBit 5 = false := by
  obtain ⟨h1, h2⟩ := rfm22IRQs_poll_accounting
  obtain ⟨ha, hb⟩ := h1 ⟨0, 0, false⟩ 255 rfl
  obtain ⟨hc, hd⟩ := h2 ⟨0, 0, false⟩ 2 5 rfl (by decide) (by decide) (by decide)
  exact ⟨ha, hb, hc, hd⟩

end Fanrf

namespace Fanrf

/-! ## FIFO transmit engine: `Rfm22::transmit_large` (src/rfm.rs) -/

/-- Rust `const FIFO_SIZE: usize = 64`. -/
def FIFO_SIZE : Nat := 64

/-- The externally visible steps `transmit_large` performs, in order:
the two verified FIFO-clear modifies of `clear_tx_fifo`, the interrupt
enable and clear, FIFO burst writes (`write_tx_fifo`), the TXON assert
(`transmit`), and interrupt waits / handled marks. -/
inductive TxEvent
  | ffclrtxSet
  | ffclrtxClear
  | setEnable (mask : Nat)
  | clearIrqs
  | burstWrite (buf : List Nat)
  | txOn
  | waitIrq (mask : Nat)
  | handledIrq (mask : Nat)
deriving DecidableEq, Repr

/-- Holds exactly on FIFO burst-write events. -/
def TxEvent.isBurst : TxEvent → Bool
  | .burstWrite _ => true
  | _ => false

/-- The refill loop of `transmit_large` followed by the final
packet-sent wait: while bytes remain, wait for the TX-FIFO-almost-empty
IRQ, mark it handled, draw up to `FIFO_SIZE - 10` more bytes and
burst-write them; once the stream is exhausted, wait for packet-sent
and mark it handled. -/
def transmitLargeLoop : List Nat → List TxEvent
  | [] => [.waitIrq IPKSENT, .handledIrq IPKSENT]
  | b :: rest =>
    .waitIrq ITXFFAEM :: .handledIrq ITXFFAEM ::
      .burstWrite ((b :: rest).take (FIFO_SIZE - 10)) ::
        transmitLargeLoop ((b :: rest).drop (FIFO_SIZE - 10))
termination_by l => l.length
decreasing_by
  simp [FIFO_SIZE]
  omega

/-- Rust `Rfm22::transmit_large`: the ordered sequence of device-visible
steps.  It draws up to `FIFO_SIZE - 10 = 54` bytes as the initial
burst; a zero-byte stream is a non-fatal no-op (only an error log, no
device interaction); otherwise it resets the TX FIFO, enables exactly
`ENPKSENT | ENTXFFAEM`, clears pending IRQs, burst-writes the initial
chunk, asserts TXON, and enters the refill loop. -/
def transmitLarge (input : List Nat) : List TxEvent :=
  let buf := input.take (FIFO_SIZE - 10)
  if buf.length = 0 then []
  else
    .ffclrtxSet :: .ffclrtxClear :: .setEnable (IPKSENT ||| ITXFFAEM) :: .clearIrqs ::
      .burstWrite buf :: .txOn :: transmitLargeLoop (input.drop (FIFO_SIZE - 10))

theorem transmitLargeLoop_count_txOn (rest : List Nat) :
    (transmitLargeLoop rest).count TxEvent.txOn = 0 := by
  induction rest using transmitLargeLoop.induct with
  | case1 => simp [transmitLargeLoop]
  | case2 b rest ih => simp [transmitLargeLoop, List.count_cons, ih]

theorem transmitLargeLoop_burst_le (rest : List Nat) :
    ∀ b, TxEvent.burstWrite b ∈ transmitLargeLoop rest → b.length ≤ FIFO_SIZE - 10 := by
  induction rest using transmitLargeLoop.induct with
  | case1 =>
    intro b hb
    simp [transmitLargeLoop] at hb
  | case2 hd rest ih =>
    intro b hb
    rw [transmitLargeLoop] at hb
    simp only [List.mem_cons] at hb
    rcases hb with h | h | h | h
    · cases h
    · cases h
    · cases h
      exact List.length_take_le _ _
    · exact ih b h

theorem transmitLargeLoop_burst_ge_one (rest : List Nat) (h : rest ≠ []) :
    1 ≤ ((transmitLargeLoop rest).filter TxEvent.isBurst).length := by
  match rest with
  | b :: tl =>
    rw [transmitLargeLoop]
    simp [TxEvent.isBurst]

/-- C5: FIFO chunking and transmit-enable ordering: for every input
byte stream longer than 54 bytes, every burst write carries at most 54
bytes, and the trace splits as `pre ++ [TXON] ++ post` where TXON
occurs in neither `pre` nor `post` (so it is asserted exactly once),
`pre` holds exactly one burst write (the initial chunk) and `post` at
least one more, so more than one burst write is issued in total. -/
theorem transmitLarge_chunking (input : List Nat) (h : 54 < input.length) :
    (∀ b, TxEvent.burstWrite b ∈ transmitLarge input → b.length ≤ 54) ∧
    ∃ pre post,
      transmitLarge input = pre ++ TxEvent.txOn :: post ∧
      pre.count TxEvent.txOn = 0 ∧
      post.count TxEvent.txOn = 0 ∧
      (pre.filter TxEvent.isBurst).length = 1 ∧
      1 ≤ (post.filter TxEvent.isBurst).length ∧
      1 < ((transmitLarge input).filter TxEvent.isBurst).length := by
  have hs : FIFO_SIZE - 10 = 54 := rfl
  have hbuflen : (input.take (FIFO_SIZE - 10)).length = 54 := by
    rw [hs, List.length_take]
    omega
  have hne : ¬ (input.take (FIFO_SIZE - 10)).length = 0 := by omega
  have hrest : input.drop (FIFO_SIZE - 10) ≠ [] := by
    rw [hs]
    intro hc
    have := congrArg List.length hc
    simp [List.length_drop] at this
    omega
  have htr : transmitLarge input =
      .ffclrtxSet :: .ffclrtxClear :: .setEnable (IPKSENT ||| ITXFFAEM) :: .clearIrqs ::
        .burstWrite (input.take (FIFO_SIZE - 10)) :: .txOn ::
          transmitLargeLoop (input.drop (FIFO_SIZE - 10)) := by
    rw [transmitLarge]
    simp only [hne, if_false]
  constructor
  · intro b hb
    rw [htr] at hb
    simp only [List.mem_cons] at hb
    rcases hb with h1 | h1 | h1 | h1 | h1 | h1 | h1
    · cases h1
    · cases h1
    · cases h1
    · cases h1
    · cases h1
      omega
    · cases h1
    · have := transmitLargeLoop_burst_le _ b h1
      omega
  · refine ⟨[.ffclrtxSet, .ffclrtxClear, .setEnable (IPKSENT ||| ITXFFAEM), .clearIrqs,
      .burstWrite (input.take (FIFO_SIZE - 10))],
      transmitLargeLoop (input.drop (FIFO_SIZE - 10)), ?_, ?_, ?_, ?_, ?_, ?_⟩
    · rw [htr]
      rfl
    · simp [List.count_cons]
    · exact transmitLargeLoop_count_txOn _
    · simp [TxEvent.isBurst]
    · exact transmitLargeLoop_burst_ge_one _ hrest
    · rw [htr]
      have h1 := transmitLargeLoop_burst_ge_one _ hrest
      simp only [List.filter, TxEvent.isBurst]
      simp [TxEvent.isBurst]
      omega

/-- Witness for `transmitLarge_chunking`: a 55-byte all-zero stream. -/
theorem transmitLarge_chunking_witness :
    54 < (List.replicate 55 0).length ∧
    ((∀ b, TxEvent.burstWrite b ∈ transmitLarge (List.replicate 55 0) → b.length ≤ 54) ∧
    ∃ pre post,
      transmitLarge (List.replicate 55 0) = pre ++ TxEvent.txOn :: post ∧
      pre.count TxEvent.txOn = 0 ∧
      post.count TxEvent.txOn = 0 ∧
      (pre.filter TxEvent.isBurst).length = 1 ∧
      1 ≤ (post.filter TxEvent.isBurst).length ∧
      1 < ((transmitLarge (List.replicate 55 0)).filter TxEvent.isBurst).length) :=
  ⟨by decide, transmitLarge_chunking (List.replicate 55 0) (by decide)⟩

end Fanrf

namespace Fanrf

/-! ## Frequency register math: `Rfm22::set_freq_mhz` (src/rfm.rs) -/

/-- The truncating `as u64` cast of an `f64`, on exact rationals:
floor, clamped at zero.  On the non-negative values this cast receives
on the non-panicking paths it is exactly truncation toward zero (a
negative operand of this cast is undefined behaviour in the source's
Rust version). -/
def f64_as_u64 (q : ℚ) : Nat := (⌊q⌋).toNat

/-- Rust `Rfm22::set_freq_mhz` (the verified register writes are omitted:
the result triple is the computed `(band, HBSEL, fcarrier)` written to
FrequencyBandSelect and CarrierFrequency1/0, with the frequency offset
fixed at 0).  `freq as u32` truncates the non-negative f64 toward
zero; the `- 240` is u32 subtraction, modelled wrapping (a debug build
would panic on underflow; either way the call fails); the two
`assert!`s become `none`. -/
def set_freq_mhz (freq : ℚ) : Option (Nat × Bool × Nat) :=
  let band : Nat := ((⌊freq⌋).toNat + 2 ^ 32 - 240) % 2 ^ 32 / 10
  if band ≤ 0x1f then
    let hbsel : Bool := decide (480 ≤ freq)
    let fcarrier : ℚ := freq / (if hbsel then 20 else 10) - ((band : ℚ) + 24)
    let fcarrier : Nat := f64_as_u64 (fcarrier * 64000)
    if fcarrier ≤ 0xffff then some (band, hbsel, fcarrier) else none
  else none

theorem floor_div_ten (a : ℚ) : ⌊a / 10⌋ = ⌊a⌋ / 10 := by
  have h1 : (⌊a⌋ : ℚ) ≤ a := Int.floor_le a
  have h2 : a < ⌊a⌋ + 1 := Int.lt_floor_add_one a
  have hm1 : (⌊a⌋ / 10) * 10 ≤ ⌊a⌋ := by omega
  have hm2 : ⌊a⌋ + 1 ≤ (⌊a⌋ / 10 + 1) * 10 := by omega
  rw [Int.floor_eq_iff]
  constructor
  · rw [le_div_iff₀ (by norm_num : (0 : ℚ) < 10)]
    have hc : ((⌊a⌋ / 10 : ℤ) : ℚ) * 10 ≤ ((⌊a⌋ : ℤ) : ℚ) := by exact_mod_cast hm1
    linarith
  · rw [div_lt_iff₀ (by norm_num : (0 : ℚ) < 10)]
    have hc : ((⌊a⌋ : ℤ) : ℚ) + 1 ≤ ((⌊a⌋ / 10 + 1 : ℤ) : ℚ) * 10 := by exact_mod_cast hm2
    push_cast at hc ⊢
    linarith

theorem set_freq_band_eq (freq : ℚ) (h32 : freq < 2 ^ 32) (h240 : 240 ≤ freq) :
    ((((⌊freq⌋).toNat + 2 ^ 32 - 240) % 2 ^ 32 / 10 : Nat) : ℤ) = ⌊(freq - 240) / 10⌋ := by
  have hfl : (240 : ℤ) ≤ ⌊freq⌋ := by
    rw [Int.le_floor]
    push_cast
    exact h240
  have hfl32 : ⌊freq⌋ < 2 ^ 32 := by
    have h1 : (⌊freq⌋ : ℚ) ≤ freq := Int.floor_le freq
    have h2 : (⌊freq⌋ : ℚ) < ((2 ^ 32 : ℤ) : ℚ) := by
      push_cast
      linarith
    exact_mod_cast h2
  have hmod : ((⌊freq⌋).toNat + 2 ^ 32 - 240) % 2 ^ 32 = (⌊freq⌋).toNat - 240 := by
    have htn32 : (⌊freq⌋).toNat < 2 ^ 32 := by omega
    have htn240 : 240 ≤ (⌊freq⌋).toNat := by omega
    have he : (⌊freq⌋).toNat + 2 ^ 32 - 240 = ((⌊freq⌋).toNat - 240) + 1 * 2 ^ 32 := by omega
    rw [he, Nat.add_mul_mod_self_right]
    exact Nat.mod_eq_of_lt (by omega)
  rw [hmod, floor_div_ten]
  rw [show (240 : ℚ) = ((240 : ℤ) : ℚ) by norm_num, Int.floor_sub_int]
  omega

theorem set_freq_band_big (freq : ℚ) (h0 : 0 ≤ freq) (hlt : freq < 240) :
    31 < ((⌊freq⌋).toNat + 2 ^ 32 - 240) % 2 ^ 32 / 10 := by
  have hfl : ⌊freq⌋ < 240 := by
    rw [Int.floor_lt]
    push_cast
    exact hlt
  have h0' : 0 ≤ ⌊freq⌋ := Int.floor_nonneg.mpr h0
  have htn : (⌊freq⌋).toNat < 240 := by omega
  have hmod : ((⌊freq⌋).toNat + 2 ^ 32 - 240) % 2 ^ 32 = (⌊freq⌋).toNat + 2 ^ 32 - 240 :=
    Nat.mod_eq_of_lt (by omega)
  rw [hmod]
  omega

theorem set_freq_mhz_some (freq : ℚ) (band : Nat) (hbsel : Bool) (fc : Nat)
    (hsome : set_freq_mhz freq = some (band, hbsel, fc)) :
    band = ((⌊freq⌋).toNat + 2 ^ 32 - 240) % 2 ^ 32 / 10 ∧
    band ≤ 0x1f ∧
    hbsel = decide (480 ≤ freq) ∧
    fc = f64_as_u64 ((freq / (if 480 ≤ freq then 20 else 10) - ((band : ℚ) + 24)) * 64000) ∧
    fc ≤ 0xffff := by
  simp only [set_freq_mhz] at hsome
  by_cases hin : ((⌊freq⌋).toNat + 2 ^ 32 - 240) % 2 ^ 32 / 10 ≤ 0x1f
  · by_cases hhb : 480 ≤ freq
    · simp only [hin, if_true, hhb, decide_True, Option.ite_none_right_eq_some,
        Option.some.injEq, Prod.mk.injEq] at hsome
      obtain ⟨hfc, hb, hh, hf⟩ := hsome
      subst hb hh hf
      refine ⟨rfl, hin, by simp [hhb], by simp [hhb], hfc⟩
    · simp only [hin, if_true, hhb, decide_False, Bool.false_eq_true, if_false,
        Option.ite_none_right_eq_some, Option.some.injEq, Prod.mk.injEq] at hsome
      obtain ⟨hfc, hb, hh, hf⟩ := hsome
      subst hb hh hf
      refine ⟨rfl, hin, by simp [hhb], by simp [hhb], hfc⟩
  · simp only [hin, if_false] at hsome
    cases hsome

/-- C6: Frequency register math: for every non-negative frequency below
2^32 MHz, the call fails whenever `floor((freq - 240) / 10)` is outside
0..31; on success the selected band equals that floor, the high-band
bit is set iff `480 ≤ freq`, and the carrier value is the truncation of
`(freq / (20 if high-band else 10) - (band + 24)) * 64000` and fits in
16 bits; in particular 303.8 MHz selects band 6 with the high-band bit
clear and carrier 24320, which fits in 16 bits. -/
theorem set_freq_mhz_spec :
    (∀ freq : ℚ, 0 ≤ freq → freq < 2 ^ 32 →
      ((⌊(freq - 240) / 10⌋ < 0 ∨ 31 < ⌊(freq - 240) / 10⌋) → set_freq_mhz freq = none) ∧
      (∀ band hbsel fcarrier, set_freq_mhz freq = some (band, hbsel, fcarrier) →
        (band : ℤ) = ⌊(freq - 240) / 10⌋ ∧
        (hbsel = true ↔ 480 ≤ freq) ∧
        fcarrier = f64_as_u64 ((freq / (if 480 ≤ freq then 20 else 10) - ((band : ℚ) + 24))
          * 64000) ∧
        fcarrier ≤ 0xffff)) ∧
    set_freq_mhz (3038 / 10) = some (6, false, 24320) := by
  constructor
  · intro freq h0 h32
    constructor
    · intro hout
      have hgt : ¬ ((⌊freq⌋).toNat + 2 ^ 32 - 240) % 2 ^ 32 / 10 ≤ 0x1f := by
        by_cases h240 : 240 ≤ freq
        · have hband := set_freq_band_eq freq h32 h240
          omega
        · have hbig := set_freq_band_big freq h0 (not_le.mp h240)
          omega
      simp only [set_freq_mhz, hgt, if_false]
    · intro band hbsel fcarrier hsome
      obtain ⟨hb, hin, hh, hf, hle⟩ := set_freq_mhz_some freq band hbsel fcarrier hsome
      have h240 : 240 ≤ freq := by
        by_contra h240
        have hbig := set_freq_band_big freq h0 (not_le.mp h240)
        omega
      have hband := set_freq_band_eq freq h32 h240
      refine ⟨by rw [hb]; exact hband, by rw [hh]; simp, hf, hle⟩
  · have h1 : ⌊(3038 / 10 : ℚ)⌋ = 303 := by norm_num
    have hhb : decide ((480 : ℚ) ≤ 3038 / 10) = false := by norm_num
    simp only [set_freq_mhz, h1, hhb]
    have hband : ((303 : ℤ).toNat + 2 ^ 32 - 240) % 2 ^ 32 / 10 = 6 := by decide
    rw [hband]
    have hfc : f64_as_u64 ((3038 / 10 / (if (false : Bool) then 20 else 10) -
        (((6 : Nat) : ℚ) + 24)) * 64000) = 24320 := by
      rw [f64_as_u64]
      norm_num
      rfl
    rw [hfc]
    norm_num

/-- Witness for `set_freq_mhz_spec`: both parts instantiated at
303.8 MHz, using the concrete result triple (6, false, 24320). -/
theorem set_freq_mhz_spec_witness :
    ((6 : Nat) : ℤ) = ⌊((3038 / 10 : ℚ) - 240) / 10⌋ ∧
    (false = true ↔ (480 : ℚ) ≤ 3038 / 10) ∧
    (24320 : Nat) = f64_as_u64 (((3038 / 10 : ℚ) / (if (480 : ℚ) ≤ 3038 / 10 then 20 else 10) -
      (((6 : Nat) : ℚ) + 24)) * 64000) ∧
    (24320 : Nat) ≤ 0xffff :=
  (set_freq_mhz_spec.1 (3038 / 10) (by norm_num) (by norm_num)).2 6 false 24320
    set_freq_mhz_spec.2

end Fanrf

namespace Fanrf

/-! ## Data rate: `Rfm22::set_data_rate_hz` (src/rfm.rs) -/

/-- Mask `TXDRTSCALE`: bit 5 of ModulationModeControl1. -/
def TXDRTSCALE : Nat := 1 <<< 5

/-- The registers `set_data_rate_hz` touches: ModulationModeControl1
and the two TX data-rate bytes. -/
structure DataRateRegs where
  mc1 : Nat
  txDataRate1 : Nat
  txDataRate0 : Nat
deriving DecidableEq, Repr

/-- Rust `Rfm22::set_data_rate_hz` over a pure register state (reads return
what was last written, so the verified writes always validate).  The
closure passed to `modify_verify` inserts `TXDRTSCALE` into
ModulationModeControl1 only when `rate < 30000` and is the identity
otherwise; the exponent is `16 + 5` with the scale bit, `16` without;
`txdr = (rate * (1 << exp) as f64 / 1e6) as u64` must fit in 16 bits
(the `assert!` becomes `none`) and its high/low bytes go to
TxDataRate1/0 (the `as u8` casts are the `% 256`). -/
def set_data_rate_hz (rate : ℚ) (regs : DataRateRegs) : Option DataRateRegs :=
  let scale := decide (rate < 30000)
  let mc1 := if scale then regs.mc1 ||| TXDRTSCALE else regs.mc1
  let exp : Nat := if scale then 16 + 5 else 16
  let txdr : Nat := f64_as_u64 (rate * ((1 <<< exp : Nat) : ℚ) / 1000000)
  if txdr ≤ 0xffff then
    some { mc1 := mc1, txDataRate1 := (txdr >>> 8) % 256, txDataRate0 := txdr % 256 }
  else none

/-- C10: for every rate of at least 30000 Hz, a successful
`set_data_rate_hz` leaves ModulationModeControl1 — in particular its
TXDRTSCALE bit — exactly as it was (the closure only inserts the bit
for low rates and never removes it, so a scale bit set by an earlier
low-rate call persists across a later high-rate call), while the txdr
bytes are computed with exponent 16. -/
theorem set_data_rate_hz_high_rate (rate : ℚ) (h : 30000 ≤ rate) (regs regs' : DataRateRegs)
    (hsome : set_data_rate_hz rate regs = some regs') :
    regs'.mc1 = regs.mc1 ∧
    regs'.mc1.testBit 5 = regs.mc1.testBit 5 ∧
    regs'.txDataRate1 = (f64_as_u64 (rate * ((1 <<< 16 : Nat) : ℚ) / 1000000) >>> 8) % 256 ∧
    regs'.txDataRate0 = f64_as_u64 (rate * ((1 <<< 16 : Nat) : ℚ) / 1000000) % 256 := by
  have hscale : ¬ (rate < 30000) := not_lt.mpr h
  simp only [set_data_rate_hz, hscale, decide_False, Bool.false_eq_true, if_false,
    Option.ite_none_right_eq_some, Option.some.injEq] at hsome
  obtain ⟨hle, hregs⟩ := hsome
  rw [← hregs]
  exact ⟨rfl, rfl, rfl, rfl⟩

/-- Witness for `set_data_rate_hz_high_rate` at rate 30000 Hz from a
state whose TXDRTSCALE bit was set by an earlier low-rate call
(mc1 = 32): txdr = floor(30000 * 2^16 / 10^6) = 1966 = 0x7AE. -/
theorem set_data_rate_hz_high_rate_witness :
    (30000 : ℚ) ≤ 30000 ∧
    ((⟨32, 7, 174⟩ : DataRateRegs).mc1 = (⟨32, 0, 0⟩ : DataRateRegs).mc1 ∧
     (⟨32, 7, 174⟩ : DataRateRegs).mc1.testBit 5 = (⟨32, 0, 0⟩ : DataRateRegs).mc1.testBit 5 ∧
     (⟨32, 7, 174⟩ : DataRateRegs).txDataRate1 =
       (f64_as_u64 ((30000 : ℚ) * ((1 <<< 16 : Nat) : ℚ) / 1000000) >>> 8) % 256 ∧
     (⟨32, 7, 174⟩ : DataRateRegs).txDataRate0 =
       f64_as_u64 ((30000 : ℚ) * ((1 <<< 16 : Nat) : ℚ) / 1000000) % 256) :=
  ⟨le_refl _,
    set_data_rate_hz_high_rate 30000 (le_refl _) ⟨32, 0, 0⟩ ⟨32, 7, 174⟩ (by
      have hs : decide ((30000 : ℚ) < 30000) = false := by norm_num
      have h65536 : ((1 <<< 16 : Nat) : ℚ) = 65536 := by norm_num [Nat.shiftLeft_eq]
      have hfl : f64_as_u64 ((30000 : ℚ) * ((1 <<< 16 : Nat) : ℚ) / 1000000) = 1966 := by
        rw [f64_as_u64, h65536]
        norm_num
        rfl
      simp only [set_data_rate_hz, hs, Bool.false_eq_true, if_false, hfl]
      decide)⟩

end Fanrf
